import Mathlib

/-!
Verification of the Signaturit downloader (`download_signaturit.py`).

The script is a sequential pipeline: list completed signatures for a year
(paginated, with retry/backoff on the HTTP layer), extract signer emails,
derive a sanitized unique file name per document, download each signed PDF,
and append one CSV row per document.

This file shallowly embeds the script's pure logic:
* strings are Lean `String`s (lists of characters), Python's `str(n)` on a
  natural number is `natToDec`;
* the filesystem state of the year output folder is the list of names that
  exist in it; `Path.exists` is list membership;
* the HTTP layer is an oracle function from attempt number (respectively
  page offset, signature id, document id) to the response the network
  would give; `time.sleep` is recorded, not performed;
* the unbounded `while` loop of `make_unique_filename` is run with fuel
  `existing.length + 1`, which is proved sufficient (`uniqueLoop` stops at
  the first free candidate, and among `existing.length + 1` distinct
  candidates one must be free).
-/

/-- Python's whitespace class `\s` restricted to the ASCII range used by the
script: space, tab, newline, vertical tab, form feed, carriage return. -/
def isPyWs (c : Char) : Bool :=
  c == ' ' || c == '\t' || c == '\n' || c == '\x0b' || c == '\x0c' || c == '\r'

/-- Python `str.strip()` on the character list: drop whitespace at both ends. -/
def stripData (cs : List Char) : List Char :=
  ((cs.dropWhile isPyWs).reverse.dropWhile isPyWs).reverse

/-- Python `str.strip()`. -/
def pyStrip (s : String) : String :=
  String.mk (stripData s.data)

/-- Decimal digit character for a digit value below ten. -/
def decChar : Nat → Char
  | 0 => '0' | 1 => '1' | 2 => '2' | 3 => '3' | 4 => '4'
  | 5 => '5' | 6 => '6' | 7 => '7' | 8 => '8' | _ => '9'

/-- Little-endian decimal digits of `n`, with enough fuel. -/
def decDigitsAux : Nat → Nat → List Char
  | 0, _ => []
  | fuel+1, n => if n = 0 then [] else decChar (n % 10) :: decDigitsAux fuel (n / 10)

/-- Python `str(n)` for a natural number: its decimal representation. -/
def natToDec (n : Nat) : String :=
  if n = 0 then "0" else String.mk (decDigitsAux (n + 1) n).reverse

/-- Value of a little-endian digit-character list; left inverse of `decDigitsAux`. -/
def decVal : List Char → Nat
  | [] => 0
  | c :: r => (c.toNat - 48) + 10 * decVal r

theorem decChar_toNat (d : Nat) (h : d < 10) : (decChar d).toNat = 48 + d := by
  interval_cases d <;> rfl

theorem decVal_decDigitsAux : ∀ fuel n, n < 10 ^ fuel → decVal (decDigitsAux fuel n) = n := by
  intro fuel
  induction fuel with
  | zero => intro n hn; interval_cases n; rfl
  | succ fuel ih =>
    intro n hn
    by_cases h0 : n = 0
    · subst h0; simp [decDigitsAux, decVal]
    · have hdiv : n / 10 < 10 ^ fuel := by
        have hlt : n < 10 ^ fuel * 10 := by
          calc n < 10 ^ (fuel + 1) := hn
            _ = 10 ^ fuel * 10 := by ring
        omega
      have hmod : n % 10 < 10 := Nat.mod_lt _ (by norm_num)
      simp only [decDigitsAux, h0, if_false, decVal]
      rw [decChar_toNat _ hmod, ih _ hdiv]
      omega

theorem natToDec_injective : Function.Injective natToDec := by
  have roundtrip : ∀ n : Nat, n ≠ 0 →
      decVal (decDigitsAux (n + 1) n) = n := by
    intro n _
    apply decVal_decDigitsAux
    calc n < 10 ^ n := Nat.lt_pow_self (by norm_num) n
      _ ≤ 10 ^ (n + 1) := Nat.pow_le_pow_right (by norm_num) (Nat.le_succ n)
  intro m n h
  by_cases hm : m = 0 <;> by_cases hn : n = 0
  · omega
  · exfalso
    simp only [natToDec, hm, hn, if_true, if_false] at h
    have hdata : (String.mk ['0']).data = (String.mk (decDigitsAux (n + 1) n).reverse).data := by
      rw [show String.mk ['0'] = "0" from rfl, h]
    simp only [String.data] at hdata
    have hlist : decDigitsAux (n + 1) n = ['0'] := by
      have := congrArg List.reverse hdata
      simpa using this.symm
    have hrt := roundtrip n hn
    rw [hlist] at hrt
    rw [show decVal ['0'] = 0 from rfl] at hrt
    exact hn hrt.symm
  · exfalso
    simp only [natToDec, hm, hn, if_true, if_false] at h
    have hdata : (String.mk (decDigitsAux (m + 1) m).reverse).data = (String.mk ['0']).data := by
      rw [h, show String.mk ['0'] = "0" from rfl]
    simp only [String.data] at hdata
    have hlist : decDigitsAux (m + 1) m = ['0'] := by
      have := congrArg List.reverse hdata
      simpa using this
    have hrt := roundtrip m hm
    rw [hlist] at hrt
    rw [show decVal ['0'] = 0 from rfl] at hrt
    exact hm hrt.symm
  · simp only [natToDec, hm, hn, if_false] at h
    have hdata := congrArg String.data h
    simp only [String.data] at hdata
    have hlists : decDigitsAux (m + 1) m = decDigitsAux (n + 1) n := by
      have := congrArg List.reverse hdata
      simpa using this
    have h1 := roundtrip m hm
    have h2 := roundtrip n hn
    rw [hlists] at h1
    omega

theorem string_data_append (s t : String) : (s ++ t).data = s.data ++ t.data := by
  cases s; cases t; rfl

theorem string_mk_data_eq {s t : String} (h : s.data = t.data) : s = t := by
  cases s; cases t; simp only [String.data] at h; rw [h]

/-- Index of the last dot in a character list, if any. -/
def lastDotIdx : List Char → Option Nat
  | [] => none
  | c :: r =>
    match lastDotIdx r with
    | some j => some (j + 1)
    | none => if c = '.' then some 0 else none

/-- Core of Python `os.path.splitext` on a name without path separators
(`sanitize_filename` has removed `/` and `\` before this is reached): split at
the last dot, unless every character before it is a dot. -/
def splitextData (cs : List Char) : List Char × List Char :=
  match lastDotIdx cs with
  | none => (cs, [])
  | some d => if (cs.take d).any (fun c => c != '.') then (cs.take d, cs.drop d) else (cs, [])

/-- Python `os.path.splitext` for a bare file name. -/
def splitext (s : String) : String × String :=
  let p := splitextData s.data
  (String.mk p.1, String.mk p.2)

/-- Candidate file name tried by `make_unique_filename` at a given counter. -/
def numberedName (stem ext : String) (counter : Nat) : String :=
  stem ++ "_" ++ natToDec counter ++ ext

/-- Loop of `make_unique_filename`: `while candidate.exists(): candidate =
f"{stem}_{counter}{ext}"; counter += 1`. The fuel argument only bounds the
iteration count; `make_unique_filename` passes enough fuel for the loop to
reach a free name, which `make_unique_filename_not_mem` proves. -/
def uniqueLoop (existing : List String) (stem ext : String) :
    Nat → Nat → String → String
  | 0, _, candidate => candidate
  | fuel+1, counter, candidate =>
    if candidate ∈ existing then
      uniqueLoop existing stem ext fuel (counter + 1) (numberedName stem ext counter)
    else candidate

/-- Model of `make_unique_filename(base_path, filename)`: `existing` is the
set of names that exist in the directory `base_path` at call time. -/
def make_unique_filename (existing : List String) (filename : String) : String :=
  let se := splitext filename
  uniqueLoop existing se.1 se.2 (existing.length + 1) 2 filename

theorem numberedName_injective (stem ext : String) :
    Function.Injective (numberedName stem ext) := by
  intro a b h
  apply natToDec_injective
  unfold numberedName at h
  have hdata := congrArg String.data h
  simp only [string_data_append] at hdata
  apply string_mk_data_eq
  have h1 := List.append_cancel_right hdata
  exact List.append_cancel_left h1

theorem uniqueLoop_not_mem (existing : List String) (stem ext : String) :
    ∀ fuel counter candidate,
      (candidate ∉ existing ∨
        ∃ i, i < fuel ∧ numberedName stem ext (counter + i) ∉ existing) →
      uniqueLoop existing stem ext fuel counter candidate ∉ existing := by
  intro fuel
  induction fuel with
  | zero =>
    intro counter candidate h
    rcases h with h | ⟨i, hi, _⟩
    · simpa [uniqueLoop] using h
    · omega
  | succ fuel ih =>
    intro counter candidate h
    by_cases hc : candidate ∈ existing
    · simp only [uniqueLoop, if_pos hc]
      apply ih
      rcases h with h | ⟨i, hi, hmem⟩
      · exact absurd hc h
      · rcases Nat.eq_zero_or_pos i with hz | hp
        · subst hz; left; simpa using hmem
        · right
          refine ⟨i - 1, by omega, ?_⟩
          have : counter + 1 + (i - 1) = counter + i := by omega
          rw [this]
          exact hmem
    · simpa [uniqueLoop, if_neg hc] using hc

theorem exists_free_numbered (existing : List String) (stem ext : String) (counter : Nat) :
    ∃ i, i < existing.length + 1 ∧ numberedName stem ext (counter + i) ∉ existing := by
  by_contra hcon
  push_neg at hcon
  set n := existing.length with hn
  set l := (List.range (n + 1)).map (fun i => numberedName stem ext (counter + i)) with hl
  have hnodup : l.Nodup := by
    apply List.Nodup.map
    · intro a b hab
      have := numberedName_injective stem ext hab
      omega
    · exact List.nodup_range _
  have hsub : l ⊆ existing := by
    intro x hx
    rw [hl] at hx
    rcases List.mem_map.mp hx with ⟨i, hi, rfl⟩
    exact hcon i (by simpa using List.mem_range.mp hi)
  have hlen : l.length = n + 1 := by simp [hl]
  have hcard1 : l.toFinset.card = n + 1 := by
    rw [List.card_toFinset, hnodup.dedup, hlen]
  have hcard2 : l.toFinset ⊆ existing.toFinset := by
    intro x hx
    rw [List.mem_toFinset] at hx ⊢
    exact hsub hx
  have hcard3 : existing.toFinset.card ≤ n := by
    calc existing.toFinset.card ≤ existing.length := existing.toFinset_card_le
      _ = n := hn.symm
  have := Finset.card_le_card hcard2
  omega

/-- Helper settling the heart of claim C2: the name returned by
`make_unique_filename` never exists in the directory at return time. -/
theorem make_unique_filename_not_mem (existing : List String) (filename : String) :
    make_unique_filename existing filename ∉ existing := by
  unfold make_unique_filename
  apply uniqueLoop_not_mem
  right
  exact exists_free_numbered existing _ _ 2

example : make_unique_filename ["report.pdf"] "report.pdf" = "report_2.pdf" := by decide

example : make_unique_filename ["report.pdf", "report_2.pdf"] "report.pdf" = "report_3.pdf" := by
  decide

/-- Character class of the script's illegal-filename regex `[\\/:*?"<>|]`. -/
def illegalChar (c : Char) : Bool :=
  c == '\\' || c == '/' || c == ':' || c == '*' || c == '?' ||
  c == '"' || c == '<' || c == '>' || c == '|'

/-- Model of `re.sub(r"\s+", " ", name)`: every maximal whitespace run becomes
one space. The flag records whether the previous character was whitespace. -/
def collapseWsAux : List Char → Bool → List Char
  | [], _ => []
  | c :: rest, prevWs =>
    if isPyWs c then
      if prevWs then collapseWsAux rest true
      else ' ' :: collapseWsAux rest true
    else c :: collapseWsAux rest false

/-- Model of `sanitize_filename`: replace illegal characters by underscore,
collapse whitespace runs to single spaces, strip, and fall back to
`"document.pdf"` when the result is empty (Python `or` on a falsy string). -/
def sanitize_filename (name : String) : String :=
  let step1 := name.data.map (fun c => if illegalChar c then '_' else c)
  let step2 := collapseWsAux step1 false
  let step3 := stripData step2
  if step3 = [] then "document.pdf" else String.mk step3

/-- Calendar date as used by `datetime.date.today()`. -/
structure PyDate where
  year : Nat
  month : Nat
  day : Nat

/-- Two-digit zero padding of `datetime.date.isoformat`. -/
def pad2 (n : Nat) : String :=
  if n < 10 then "0" ++ natToDec n else natToDec n

/-- Four-digit zero padding of `datetime.date.isoformat`. -/
def pad4 (n : Nat) : String :=
  if n < 10 then "000" ++ natToDec n
  else if n < 100 then "00" ++ natToDec n
  else if n < 1000 then "0" ++ natToDec n
  else natToDec n

/-- Model of `today_iso()`: `dt.date.today().isoformat()`, with the current
date passed explicitly. -/
def today_iso (today : PyDate) : String :=
  pad4 today.year ++ "-" ++ pad2 today.month ++ "-" ++ pad2 today.day

/-- Model of `build_date_range_for_year`: since = Jan 1 of the year; until =
today's ISO date when the year is the current year, else Dec 31. -/
def build_date_range_for_year (today : PyDate) (year : Nat) : String × String :=
  let since := natToDec year ++ "-01-01"
  let untilStr := if year = today.year then today_iso today else natToDec year ++ "-12-31"
  (since, untilStr)

/-- Character class `[^@\s]` of the script's email regexes. -/
def emailChar (c : Char) : Bool :=
  !(c == '@') && !(isPyWs c)

/-- Dot constraint of the email regexes on the part after the `@`: the
pattern `[^@\s]+\.[^@\s]+` matches `cs` in full iff some dot occurs at an
index between 1 and `cs.length - 2`. -/
def hasProperDot (cs : List Char) : Bool :=
  ((cs.drop 1).dropLast).contains '.'

/-- Full-match semantics of `re.match(r"^[^@\s]+@[^@\s]+\.[^@\s]+$", s)`:
no whitespace, exactly one `@` which is not first, and a dot after the `@`
with at least one character on each side. -/
def isEmailData (cs : List Char) : Bool :=
  cs.all (fun c => !(isPyWs c)) &&
  cs.countP (fun c => c == '@') == 1 &&
  !(cs.takeWhile (fun c => !(c == '@'))).isEmpty &&
  hasProperDot ((cs.dropWhile (fun c => !(c == '@'))).drop 1)

/-- Validation regex of `add_email`. -/
def isEmail (s : String) : Bool :=
  isEmailData s.data

/-- Model of the `add_email` closure of `extract_emails`: strip, validate
against the email regex, and append if not already collected. -/
def add_email (emails : List String) (e : String) : List String :=
  let e2 := pyStrip e
  if isEmail e2 && !(emails.contains e2) then emails ++ [e2] else emails

/-- JSON values as returned by `resp.json()`: the payloads the extractor
traverses. Objects keep insertion order, as Python dicts do. -/
inductive Json where
  | null
  | bool (b : Bool)
  | num (n : Int)
  | str (s : String)
  | arr (elems : List Json)
  | obj (fields : List (String × Json))

/-- Python `dict.get(key)` (None when absent or when the value is not a dict). -/
def Json.get (j : Json) (key : String) : Option Json :=
  match j with
  | .obj fields => (fields.find? (fun kv => kv.1 == key)).map (fun kv => kv.2)
  | _ => none

/-- Python `isinstance(·, dict)`. -/
def Json.isObj : Json → Bool
  | .obj _ => true
  | _ => false

/-- Python `isinstance(·, list)` rolled into the match in `harvest_from`. -/
def add_email_json (emails : List String) (v : Option Json) : List String :=
  match v with
  | some (Json.str e) => add_email emails e
  | _ => emails

/-- Body of `harvest_from`'s inner loop: for a dict item, take its `email`
field and, if present, its embedded `user` dict's `email` field. -/
def harvestItem (emails : List String) (it : Json) : List String :=
  match it with
  | Json.obj _ =>
    let e1 := add_email_json emails (it.get "email")
    match it.get "user" with
    | some u => if u.isObj then add_email_json e1 (u.get "email") else e1
    | _ => e1
  | _ => emails

/-- Model of `harvest_from`: scan the `signers`, `recipients` and
`participants` lists of a container in that order. -/
def harvest_from (container : Json) (emails : List String) : List String :=
  ["signers", "recipients", "participants"].foldl
    (fun acc key =>
      match container.get key with
      | some (Json.arr items) => items.foldl harvestItem acc
      | _ => acc)
    emails

/-- Scanner of `re.findall(r"[^@\s]+@[^@\s]+\.[^@\s]+", s)`: leftmost,
non-overlapping matches. A match attempt at a position takes the maximal
`[^@\s]` run; it succeeds iff the run is followed by `@` and the run after
the `@` contains a dot with at least one character on each side, in which
case the match greedily spans to the end of that second run. The fuel is the
remaining list length, so it never runs out. -/
def findallGo : Nat → List Char → List (List Char)
  | 0, _ => []
  | fuel+1, cs =>
    match cs with
    | [] => []
    | c :: rest =>
      if emailChar c then
        let run := rest.takeWhile emailChar
        let rest1 := rest.dropWhile emailChar
        match rest1 with
        | '@' :: rest2 =>
          let run2 := rest2.takeWhile emailChar
          let rest3 := rest2.dropWhile emailChar
          if hasProperDot run2 then ((c :: run) ++ '@' :: run2) :: findallGo fuel rest3
          else findallGo fuel rest2
        | _ => findallGo fuel rest1
      else findallGo fuel rest

/-- Model of `re.findall` with the email pattern. -/
def findall (s : String) : List String :=
  (findallGo s.data.length s.data).map String.mk

/-- Model of the `walk` closure of `extract_emails`: depth-first traversal
adding every pattern match found in a string leaf via `add_email`. -/
def walkAdd (o : Json) (emails : List String) : List String :=
  match o with
  | Json.obj fields => fields.attach.foldl (fun acc kv => walkAdd kv.1.2 acc) emails
  | Json.arr elems => elems.attach.foldl (fun acc el => walkAdd el.1 acc) emails
  | Json.str s => (findall s).foldl add_email emails
  | _ => emails
termination_by sizeOf o
decreasing_by
  · have h1 := List.sizeOf_lt_of_mem kv.2
    have h2 : sizeOf kv.1.2 < sizeOf kv.1 := by
      obtain ⟨a, b⟩ := kv.1
      simp only [Prod.mk.sizeOf_spec]
      omega
    simp only [Json.obj.sizeOf_spec]
    omega
  · have h1 := List.sizeOf_lt_of_mem el.2
    simp only [Json.arr.sizeOf_spec]
    omega

/-- Model of `extract_emails(sig_summary, sig_detail)`. -/
def extract_emails (sig_summary : Json) (sig_detail : Option Json) : List String :=
  let e0 : List String := []
  let e1 := match sig_detail with
    | some d => if d.isObj then harvest_from d e0 else e0
    | none => e0
  let e2 := if e1.isEmpty && sig_summary.isObj then harvest_from sig_summary e1 else e1
  if !e2.isEmpty then e2
  else
    let e3 := match sig_detail with
      | some d => if d.isObj then walkAdd d e2 else e2
      | none => e2
    let e4 := if e3.isEmpty && sig_summary.isObj then walkAdd sig_summary e3 else e3
    e4

/-- First non-empty result of an ordered list of extraction strategies. -/
def firstNonEmpty (ls : List (List String)) : List String :=
  match ls.find? (fun l => !l.isEmpty) with
  | some l => l
  | none => []

/-- Script constant `PAGE_LIMIT = 100`. -/
def PAGE_LIMIT : Nat := 100

/-- Script constant `MAX_RETRIES = 5`. -/
def MAX_RETRIES : Nat := 5

/-- Script constant `INITIAL_BACKOFF_SECONDS = 1.5`, stored exactly in units
of half a second (3 halves = 1.5 s); doubling keeps every delay a whole
number of halves. -/
def INITIAL_BACKOFF_HALVES : Nat := 3

/-- Status codes retried by `api_get`: `(429, 500, 502, 503, 504)`. -/
def retryableStatus (s : Nat) : Bool :=
  s == 429 || s == 500 || s == 502 || s == 503 || s == 504

/-- Outcome of one `api_get` call: the status of the returned response, the
number of the attempt that produced it, and the sleep durations performed
before retries, in order. -/
structure ApiGetTrace where
  status : Nat
  attempts : Nat
  sleeps : List Nat
deriving DecidableEq

/-- Loop of `api_get` over `responses`, the status the server would return on
each attempt (1-based). The fuel is `MAX_RETRIES + 1 - attempt`; at fuel 1
the attempt equals `MAX_RETRIES` and the response is returned whether or not
its status is retryable. Fuel 0 is never reached from `api_get`. -/
def apiGetGo (responses : Nat → Nat) : Nat → Nat → Nat → ApiGetTrace
  | 0, attempt, _ => { status := responses attempt, attempts := attempt, sleeps := [] }
  | 1, attempt, _ => { status := responses attempt, attempts := attempt, sleeps := [] }
  | fuel+2, attempt, backoff =>
    let s := responses attempt
    if retryableStatus s then
      let t := apiGetGo responses (fuel + 1) (attempt + 1) (backoff * 2)
      { t with sleeps := backoff :: t.sleeps }
    else { status := s, attempts := attempt, sleeps := [] }

/-- Model of `api_get`: up to `MAX_RETRIES` attempts with doubling backoff. -/
def api_get (responses : Nat → Nat) : ApiGetTrace :=
  apiGetGo responses MAX_RETRIES 1 INITIAL_BACKOFF_HALVES

/-- Response of the list endpoint for one page request: HTTP status, response
text, and the decoded JSON array. -/
structure PageResp (α : Type) where
  status : Nat
  text : String
  body : List α

/-- Loop of `fetch_signatures_for_year`: request pages at offsets 0, 100,
200, …; abort on a non-200; stop on an empty page, or after extending with a
page shorter than `PAGE_LIMIT`. The Python loop is unbounded; the fuel only
needs to cover the number of pages until a stopping page. -/
def fetchLoop {α : Type} (server : Nat → PageResp α) :
    Nat → Nat → List α → Except String (List α)
  | 0, _, _ => Except.error "out of fuel"
  | fuel+1, offset, collected =>
    let resp := server offset
    if resp.status ≠ 200 then
      Except.error ("Failed to list signatures: " ++ natToDec resp.status ++ " " ++ resp.text)
    else
      if resp.body.isEmpty then Except.ok collected
      else
        let collected2 := collected ++ resp.body
        if resp.body.length < PAGE_LIMIT then Except.ok collected2
        else fetchLoop server fuel (offset + PAGE_LIMIT) collected2

/-- Model of `fetch_signatures_for_year`: `server offset` is the response
`api_get("/signatures.json", …, offset=offset)` would produce. -/
def fetch_signatures_for_year {α : Type} (fuel : Nat) (server : Nat → PageResp α) :
    Except String (List α) :=
  fetchLoop server fuel 0 []

/-- Document reference inside a signature record: `doc["id"]` and
`doc.get("file", {}).get("name")`. -/
structure Doc where
  id : String
  file_name : Option String
deriving DecidableEq

/-- Signature record from the list endpoint: the fields `main` reads, plus
the raw summary payload passed to `extract_emails`. -/
structure Sig where
  id : String
  created_at : String
  documents : List Doc
  raw : Json

/-- One CSV ledger row, in the header's column order. -/
structure Row where
  signature_id : String
  document_id : String
  email_used : String
  original_filename : String
  saved_path : String
  created_at : String
  status : String
  error : String
deriving DecidableEq

/-- State threaded through `main`'s loop: names existing in the year folder
(files and the debug artifacts; `Path.exists` is membership), the ledger rows
appended so far, the document files written by this run, and the three
console counters. -/
structure RunSt where
  fs : List String
  rows : List Row
  written : List String
  downloaded : Nat
  skipped : Nat
  failures : Nat
deriving DecidableEq

/-- Network oracle for one run: the detail payload per signature id (`none`
models a `fetch_signature_detail` exception) and the download outcome per
(signature id, document id). -/
structure Env where
  detail : String → Option Json
  download : String → String → Except String Unit

/-- Model of `original_name = file_info.get("name") or f"{doc_id}.pdf"`:
a missing or empty (falsy) name falls back to the document id. -/
def originalNameOf (doc : Doc) : String :=
  match doc.file_name with
  | some n => if n = "" then doc.id ++ ".pdf" else n
  | none => doc.id ++ ".pdf"

/-- Base-name derivation of `main`: prepend the joined emails and an
underscore when an email was found (`email_used` nonempty). -/
def baseNameFor (email_used original_name : String) : String :=
  if email_used = "" then original_name else email_used ++ "_" ++ original_name

/-- Sanitized name with extension guarantee: `sanitize_filename`, then append
`.pdf` when `os.path.splitext` reports no extension. -/
def safeNameFor (email_used original_name : String) : String :=
  let safe := sanitize_filename (baseNameFor email_used original_name)
  if (splitext safe).2 = "" then safe ++ ".pdf" else safe

/-- Per-document body of `main`'s inner loop: derive the unique output path,
skip when it exists, otherwise download and either write the file and a
`downloaded` row or record an `error` row and continue. -/
def processDoc (env : Env) (sig_id created_at email_used : String)
    (st : RunSt) (doc : Doc) : RunSt :=
  let doc_id := doc.id
  let original_name := originalNameOf doc
  let safe_name := safeNameFor email_used original_name
  let out_path := make_unique_filename st.fs safe_name
  if out_path ∈ st.fs then
    { st with
      skipped := st.skipped + 1,
      rows := st.rows ++
        [⟨sig_id, doc_id, email_used, original_name, out_path, created_at, "skipped_exists", ""⟩] }
  else
    match env.download sig_id doc_id with
    | Except.ok _ =>
      { st with
        fs := st.fs ++ [out_path],
        written := st.written ++ [out_path],
        downloaded := st.downloaded + 1,
        rows := st.rows ++
          [⟨sig_id, doc_id, email_used, original_name, out_path, created_at, "downloaded", ""⟩] }
    | Except.error e =>
      { st with
        failures := st.failures + 1,
        rows := st.rows ++
          [⟨sig_id, doc_id, email_used, original_name, out_path, created_at, "error", e⟩] }

/-- Python truthiness of a JSON payload (`if detail and …`). -/
def Json.truthy : Json → Bool
  | .null => false
  | .bool b => b
  | .num n => n != 0
  | .str s => !(s == "")
  | .arr l => !l.isEmpty
  | .obj l => !l.isEmpty

/-- Debug-dump step of `main` when no email was found: create the
`_no_email_samples` folder and write `<sig_id>.json` once, if the detail
payload is truthy and the dump does not already exist. -/
def addDebugDump (detail : Option Json) (sig_id : String) (st : RunSt) : RunSt :=
  let dirName := "_no_email_samples"
  let fs1 := if dirName ∈ st.fs then st.fs else st.fs ++ [dirName]
  let debug_file := dirName ++ "/" ++ sig_id ++ ".json"
  let fs2 := match detail with
    | some d => if d.truthy && !(fs1.contains debug_file) then fs1 ++ [debug_file] else fs1
    | none => fs1
  { st with fs := fs2 }

/-- Per-signature body of `main`'s outer loop: fetch the detail (failure
tolerated), extract emails, dump a debug sample when none was found, then
process every document. -/
def processSig (env : Env) (st : RunSt) (sig : Sig) : RunSt :=
  let detail := env.detail sig.id
  let emails := extract_emails sig.raw detail
  let email_used := if emails.isEmpty then "" else String.intercalate "+" emails
  let st1 := if email_used = "" then addDebugDump detail sig.id st else st
  sig.documents.foldl (processDoc env sig.id sig.created_at email_used) st1

/-- Model of `main` after a successful listing: create the CSV ledger when it
does not exist yet, then run the per-signature loop over the listing. -/
def mainRunOk (env : Env) (sigs : List Sig) (fs0 : List String) : RunSt :=
  let fs1 := if "download_log.csv" ∈ fs0 then fs0 else fs0 ++ ["download_log.csv"]
  sigs.foldl (processSig env)
    { fs := fs1, rows := [], written := [], downloaded := 0, skipped := 0, failures := 0 }

/-- Model of `main` from the listing step on: a listing failure propagates
and aborts the run before anything is processed. -/
def mainRun (env : Env) (listResult : Except String (List Sig)) (fs0 : List String) :
    Except String RunSt :=
  match listResult with
  | Except.error e => Except.error e
  | Except.ok sigs => Except.ok (mainRunOk env sigs fs0)

example :
    extract_emails (Json.obj [])
      (some (Json.obj [("signers",
        Json.arr [Json.obj [("email", Json.str "a@x.com")],
                  Json.obj [("email", Json.str "a@x.com")]])])) = ["a@x.com"] := by
  decide

example : api_get (fun a => if a ≤ 2 then 429 else 200) =
    ⟨200, 3, [3, 6]⟩ := by decide

example : api_get (fun _ => 500) = ⟨500, 5, [3, 6, 12, 24]⟩ := by decide

/-- Invariant maintained by the `emails` accumulator of `extract_emails`:
no duplicates, and every entry passed the validation regex. -/
def emailInv (l : List String) : Prop :=
  l.Nodup ∧ ∀ e ∈ l, isEmail e = true

theorem foldl_preserve {α β : Type} {P : α → Prop} (f : α → β → α) (l : List β)
    (h : ∀ a b, b ∈ l → P a → P (f a b)) : ∀ a, P a → P (l.foldl f a) := by
  induction l with
  | nil => intro a ha; simpa using ha
  | cons x xs ih =>
    intro a ha
    simp only [List.foldl_cons]
    exact ih (fun a b hb => h a b (List.mem_cons_of_mem _ hb)) _
      (h a x (List.mem_cons_self _ _) ha)

theorem add_email_inv {acc : List String} (h : emailInv acc) (e : String) :
    emailInv (add_email acc e) := by
  unfold add_email
  by_cases hc : (isEmail (pyStrip e) && !acc.contains (pyStrip e)) = true
  · rw [if_pos hc]
    have hc2 := hc
    rw [Bool.and_eq_true] at hc2
    obtain ⟨hvalid, hmem⟩ := hc2
    have hnotmem : pyStrip e ∉ acc := by
      intro hin
      have htrue : acc.contains (pyStrip e) = true := List.elem_iff.mpr hin
      rw [htrue] at hmem
      simp at hmem
    constructor
    · rw [List.nodup_append]
      refine ⟨h.1, List.nodup_singleton _, ?_⟩
      intro a ha hb
      simp only [List.mem_singleton] at hb
      subst hb
      exact hnotmem ha
    · intro x hx
      rcases List.mem_append.mp hx with hx | hx
      · exact h.2 x hx
      · simp only [List.mem_singleton] at hx
        subst hx
        exact hvalid
  · rw [if_neg hc]
    exact h

theorem add_email_json_inv {acc : List String} (h : emailInv acc) (v : Option Json) :
    emailInv (add_email_json acc v) := by
  unfold add_email_json
  cases v with
  | none => exact h
  | some j =>
    cases j <;> first
      | exact h
      | exact add_email_inv h _

theorem harvestItem_inv {acc : List String} (h : emailInv acc) (it : Json) :
    emailInv (harvestItem acc it) := by
  unfold harvestItem
  cases it <;> try exact h
  case obj fields =>
    cases hu : (Json.obj fields).get "user" with
    | none => exact add_email_json_inv h _
    | some u =>
      by_cases hobj : u.isObj = true
      · simp only [hu, hobj, if_true]
        exact add_email_json_inv (add_email_json_inv h _) _
      · simp only [hu, hobj]
        simp only [if_neg hobj, Bool.false_eq_true, if_false]
        exact add_email_json_inv h _

theorem harvest_from_inv {acc : List String} (h : emailInv acc) (container : Json) :
    emailInv (harvest_from container acc) := by
  unfold harvest_from
  refine @foldl_preserve _ _ emailInv _ _ ?_ acc h
  intro a key _ ha
  cases hk : container.get key with
  | none => exact ha
  | some j =>
    cases j <;> try exact ha
    case arr items =>
      exact @foldl_preserve _ _ emailInv harvestItem items
        (fun b it _ hb => harvestItem_inv hb it) a ha

theorem walkAdd_inv : ∀ (o : Json) {acc : List String}, emailInv acc →
    emailInv (walkAdd o acc) := by
  have main : ∀ n (o : Json), sizeOf o ≤ n → ∀ (acc : List String), emailInv acc →
      emailInv (walkAdd o acc) := by
    intro n
    induction n with
    | zero =>
      intro o hsz
      exfalso
      cases o <;> simp at hsz
    | succ n ih =>
      intro o hsz acc hacc
      cases o with
      | null => simpa [walkAdd] using hacc
      | bool b => simpa [walkAdd] using hacc
      | num m => simpa [walkAdd] using hacc
      | str s =>
        simp only [walkAdd]
        exact @foldl_preserve _ _ emailInv add_email (findall s)
          (fun a e _ ha => add_email_inv ha e) acc hacc
      | arr elems =>
        simp only [walkAdd]
        refine @foldl_preserve _ _ emailInv _ elems.attach ?_ acc hacc
        intro a el _ ha
        have hmem := List.sizeOf_lt_of_mem el.2
        have hle : sizeOf el.1 ≤ n := by
          simp only [Json.arr.sizeOf_spec] at hsz
          omega
        exact ih el.1 hle a ha
      | obj fields =>
        simp only [walkAdd]
        refine @foldl_preserve _ _ emailInv _ fields.attach ?_ acc hacc
        intro a kv _ ha
        have hmem := List.sizeOf_lt_of_mem kv.2
        have hkv : sizeOf kv.1.2 < sizeOf kv.1 := by
          obtain ⟨x, y⟩ := kv.1
          simp only [Prod.mk.sizeOf_spec]
          omega
        have hle : sizeOf kv.1.2 ≤ n := by
          simp only [Json.obj.sizeOf_spec] at hsz
          omega
        exact ih kv.1.2 hle a ha
  intro o acc hacc
  exact main (sizeOf o) o (Nat.le_refl _) acc hacc

theorem extract_emails_inv (sig_summary : Json) (sig_detail : Option Json) :
    emailInv (extract_emails sig_summary sig_detail) := by
  have h0 : emailInv [] := ⟨List.nodup_nil, by intro e he; cases he⟩
  unfold extract_emails
  dsimp only
  repeat' (first | split | dsimp only)
  all_goals
    repeat
      first
        | exact h0
        | apply harvest_from_inv
        | apply walkAdd_inv

/-- Strategy 1 of the spec's extraction order: structured scan of `detail`. -/
def strat1 (d : Option Json) : List String :=
  match d with
  | some j => if j.isObj then harvest_from j [] else []
  | none => []

/-- Strategy 2: structured scan of `summary`. -/
def strat2 (s : Json) : List String :=
  if s.isObj then harvest_from s [] else []

/-- Strategy 3: recursive walk over all string leaves of `detail`. -/
def strat3 (d : Option Json) : List String :=
  match d with
  | some j => if j.isObj then walkAdd j [] else []
  | none => []

/-- Strategy 4: recursive walk over all string leaves of `summary`. -/
def strat4 (s : Json) : List String :=
  if s.isObj then walkAdd s [] else []

theorem firstNonEmpty_cons_ne (l : List String) (ls : List (List String)) (h : l ≠ []) :
    firstNonEmpty (l :: ls) = l := by
  have hE : l.isEmpty = false := by
    cases hE : l.isEmpty
    · rfl
    · exact absurd (List.isEmpty_iff.mp hE) h
  unfold firstNonEmpty
  rw [List.find?_cons_of_pos]
  simp [hE]

theorem firstNonEmpty_cons_nil (ls : List (List String)) :
    firstNonEmpty ([] :: ls) = firstNonEmpty ls := by
  unfold firstNonEmpty
  rw [List.find?_cons_of_neg]
  simp

theorem isEmpty_false_of_ne_nil {α : Type} {l : List α} (h : l ≠ []) : l.isEmpty = false := by
  cases hE : l.isEmpty
  · rfl
  · exact absurd (List.isEmpty_iff.mp hE) h

theorem extract_of_strat1_ne (s : Json) (d : Option Json) (h : strat1 d ≠ []) :
    extract_emails s d = strat1 d := by
  cases d with
  | none => exact absurd rfl h
  | some j =>
    by_cases hj : j.isObj = true
    · have hA : harvest_from j [] ≠ [] := by simpa [strat1, hj] using h
      have hE := isEmpty_false_of_ne_nil hA
      simp [extract_emails, strat1, hj, hE]
    · exact absurd (by simp [strat1, hj]) h

theorem extract_of_strat2_ne (s : Json) (d : Option Json) (h1 : strat1 d = [])
    (h2 : strat2 s ≠ []) : extract_emails s d = strat2 s := by
  by_cases hs : s.isObj = true
  · have hB : harvest_from s [] ≠ [] := by simpa [strat2, hs] using h2
    have hE := isEmpty_false_of_ne_nil hB
    cases d with
    | none => simp [extract_emails, strat2, hs, hE]
    | some j =>
      by_cases hj : j.isObj = true
      · have hA : harvest_from j [] = [] := by simpa [strat1, hj] using h1
        simp [extract_emails, strat2, hs, hj, hA, hE]
      · simp [extract_emails, strat2, hs, hj, hE]
  · exact absurd (by simp [strat2, hs]) h2

theorem extract_of_strat3_ne (s : Json) (d : Option Json) (h1 : strat1 d = [])
    (h2 : strat2 s = []) (h3 : strat3 d ≠ []) : extract_emails s d = strat3 d := by
  cases d with
  | none => exact absurd rfl h3
  | some j =>
    by_cases hj : j.isObj = true
    · have hA : harvest_from j [] = [] := by simpa [strat1, hj] using h1
      have hC : walkAdd j [] ≠ [] := by simpa [strat3, hj] using h3
      have hE := isEmpty_false_of_ne_nil hC
      by_cases hs : s.isObj = true
      · have hB : harvest_from s [] = [] := by simpa [strat2, hs] using h2
        simp [extract_emails, strat3, hj, hs, hA, hB, hE]
      · simp [extract_emails, strat3, hj, hs, hA, hE]
    · exact absurd (by simp [strat3, hj]) h3

theorem extract_of_strat4 (s : Json) (d : Option Json) (h1 : strat1 d = [])
    (h2 : strat2 s = []) (h3 : strat3 d = []) : extract_emails s d = strat4 s := by
  by_cases hs : s.isObj = true
  · have hB : harvest_from s [] = [] := by simpa [strat2, hs] using h2
    cases d with
    | none => simp [extract_emails, strat4, hs, hB]
    | some j =>
      by_cases hj : j.isObj = true
      · have hA : harvest_from j [] = [] := by simpa [strat1, hj] using h1
        have hC : walkAdd j [] = [] := by simpa [strat3, hj] using h3
        simp [extract_emails, strat4, hs, hj, hA, hB, hC]
      · simp [extract_emails, strat4, hs, hj, hB]
  · have hD : strat4 s = [] := by simp [strat4, hs]
    rw [hD]
    cases d with
    | none => simp [extract_emails, hs]
    | some j =>
      by_cases hj : j.isObj = true
      · have hA : harvest_from j [] = [] := by simpa [strat1, hj] using h1
        have hC : walkAdd j [] = [] := by simpa [strat3, hj] using h3
        simp [extract_emails, hs, hj, hA, hC]
      · simp [extract_emails, hs, hj]

theorem extract_emails_eq_firstNonEmpty (s : Json) (d : Option Json) :
    extract_emails s d = firstNonEmpty [strat1 d, strat2 s, strat3 d, strat4 s] := by
  by_cases h1 : strat1 d = []
  · rw [h1, firstNonEmpty_cons_nil]
    by_cases h2 : strat2 s = []
    · rw [h2, firstNonEmpty_cons_nil]
      by_cases h3 : strat3 d = []
      · rw [h3, firstNonEmpty_cons_nil]
        by_cases h4 : strat4 s = []
        · rw [extract_of_strat4 s d h1 h2 h3, h4]
          rfl
        · rw [extract_of_strat4 s d h1 h2 h3, firstNonEmpty_cons_ne _ _ h4]
      · rw [extract_of_strat3_ne s d h1 h2 h3, firstNonEmpty_cons_ne _ _ h3]
    · rw [extract_of_strat2_ne s d h1 h2, firstNonEmpty_cons_ne _ _ h2]
  · rw [extract_of_strat1_ne s d h1, firstNonEmpty_cons_ne _ _ h1]

/-- Pair identifying the document a ledger row is about. -/
def rowKey (r : Row) : String × String :=
  (r.signature_id, r.document_id)

/-- Property of every row produced by the per-document loop: its status is
`downloaded` or `error` (never `skipped_exists`, since the path returned by
`make_unique_filename` never exists), and an `error` row carries exactly the
failure detail of the download oracle for its document. -/
def rowPred (env : Env) (r : Row) : Prop :=
  (r.status = "downloaded" ∨ r.status = "error") ∧
  (r.status = "error" → env.download r.signature_id r.document_id = Except.error r.error)

/-- Whether the download oracle succeeds for a document. -/
def downloadOkB (env : Env) (sid did : String) : Bool :=
  match env.download sid did with
  | Except.ok _ => true
  | Except.error _ => false

theorem processDoc_spec (env : Env) (sid cat eu : String) (st : RunSt) (doc : Doc) :
    ((processDoc env sid cat eu st doc).rows.map rowKey
        = st.rows.map rowKey ++ [(sid, doc.id)])
    ∧ ((processDoc env sid cat eu st doc).written.length
        = st.written.length + (if downloadOkB env sid doc.id = true then 1 else 0))
    ∧ ((processDoc env sid cat eu st doc).rows.countP (fun r => r.status == "downloaded")
        = st.rows.countP (fun r => r.status == "downloaded")
          + (if downloadOkB env sid doc.id = true then 1 else 0))
    ∧ (∀ r ∈ (processDoc env sid cat eu st doc).rows, r ∈ st.rows ∨ rowPred env r) := by
  unfold processDoc
  dsimp only
  rw [if_neg (make_unique_filename_not_mem st.fs _)]
  cases hd : env.download sid doc.id with
  | ok u =>
    refine ⟨?_, ?_, ?_, ?_⟩
    · simp [rowKey]
    · simp [downloadOkB, hd]
    · simp [downloadOkB, hd, List.countP_append, List.countP_cons]
    · intro r hr
      rcases List.mem_append.mp hr with hr | hr
      · exact Or.inl hr
      · simp only [List.mem_singleton] at hr
        subst hr
        refine Or.inr ⟨Or.inl rfl, ?_⟩
        intro hcontra
        simp at hcontra
  | error e =>
    refine ⟨?_, ?_, ?_, ?_⟩
    · simp [rowKey]
    · simp [downloadOkB, hd]
    · simp [downloadOkB, hd, List.countP_append, List.countP_cons]
    · intro r hr
      rcases List.mem_append.mp hr with hr | hr
      · exact Or.inl hr
      · simp only [List.mem_singleton] at hr
        subst hr
        refine Or.inr ⟨Or.inr rfl, ?_⟩
        intro _
        exact hd

theorem foldDocs_spec (env : Env) (sid cat eu : String) :
    ∀ (docs : List Doc) (st : RunSt),
      ((docs.foldl (processDoc env sid cat eu) st).rows.map rowKey
          = st.rows.map rowKey ++ docs.map (fun dd => (sid, dd.id)))
      ∧ ((docs.foldl (processDoc env sid cat eu) st).written.length
          = st.written.length + docs.countP (fun dd => downloadOkB env sid dd.id))
      ∧ ((docs.foldl (processDoc env sid cat eu) st).rows.countP (fun r => r.status == "downloaded")
          = st.rows.countP (fun r => r.status == "downloaded")
            + docs.countP (fun dd => downloadOkB env sid dd.id))
      ∧ (∀ r ∈ (docs.foldl (processDoc env sid cat eu) st).rows, r ∈ st.rows ∨ rowPred env r) := by
  intro docs
  induction docs with
  | nil =>
    intro st
    refine ⟨by simp, by simp, by simp, ?_⟩
    intro r hr
    exact Or.inl hr
  | cons d ds ih =>
    intro st
    simp only [List.foldl_cons]
    obtain ⟨p1, p2, p3, p4⟩ := processDoc_spec env sid cat eu st d
    obtain ⟨q1, q2, q3, q4⟩ := ih (processDoc env sid cat eu st d)
    refine ⟨?_, ?_, ?_, ?_⟩
    · rw [q1, p1]
      simp
    · rw [q2, p2, List.countP_cons]
      by_cases hok : downloadOkB env sid d.id = true <;> simp [hok] <;> omega
    · rw [q3, p3, List.countP_cons]
      by_cases hok : downloadOkB env sid d.id = true <;> simp [hok] <;> omega
    · intro r hr
      rcases q4 r hr with hmem | hpred
      · exact p4 r hmem
      · exact Or.inr hpred

theorem addDebugDump_fields (detail : Option Json) (sig_id : String) (st : RunSt) :
    (addDebugDump detail sig_id st).rows = st.rows ∧
    (addDebugDump detail sig_id st).written = st.written := by
  constructor <;> rfl

theorem foldSigs_spec (env : Env) :
    ∀ (sigs : List Sig) (st : RunSt),
      ((sigs.foldl (processSig env) st).rows.map rowKey
          = st.rows.map rowKey
            ++ sigs.flatMap (fun s => s.documents.map (fun dd => (s.id, dd.id))))
      ∧ ((sigs.foldl (processSig env) st).written.length
          = st.written.length
            + (sigs.map (fun s => s.documents.countP (fun dd => downloadOkB env s.id dd.id))).sum)
      ∧ ((sigs.foldl (processSig env) st).rows.countP (fun r => r.status == "downloaded")
          = st.rows.countP (fun r => r.status == "downloaded")
            + (sigs.map (fun s => s.documents.countP (fun dd => downloadOkB env s.id dd.id))).sum)
      ∧ (∀ r ∈ (sigs.foldl (processSig env) st).rows, r ∈ st.rows ∨ rowPred env r) := by
  intro sigs
  induction sigs with
  | nil =>
    intro st
    refine ⟨by simp, by simp, by simp, ?_⟩
    intro r hr
    exact Or.inl hr
  | cons s ss ih =>
    intro st
    simp only [List.foldl_cons]
    have hsig : processSig env st s
        = s.documents.foldl
            (processDoc env s.id s.created_at
              (if (extract_emails s.raw (env.detail s.id)).isEmpty then ""
               else String.intercalate "+" (extract_emails s.raw (env.detail s.id))))
            (if (if (extract_emails s.raw (env.detail s.id)).isEmpty then ""
                 else String.intercalate "+" (extract_emails s.raw (env.detail s.id))) = ""
             then addDebugDump (env.detail s.id) s.id st else st) := rfl
    set eu := (if (extract_emails s.raw (env.detail s.id)).isEmpty then ""
               else String.intercalate "+" (extract_emails s.raw (env.detail s.id))) with heu
    set st1 := (if eu = "" then addDebugDump (env.detail s.id) s.id st else st) with hst1
    have hst1rows : st1.rows = st.rows := by
      rw [hst1]
      by_cases hc : eu = "" <;> simp [hc, (addDebugDump_fields (env.detail s.id) s.id st).1]
    have hst1written : st1.written = st.written := by
      rw [hst1]
      by_cases hc : eu = "" <;> simp [hc, (addDebugDump_fields (env.detail s.id) s.id st).2]
    obtain ⟨p1, p2, p3, p4⟩ := foldDocs_spec env s.id s.created_at eu s.documents st1
    obtain ⟨q1, q2, q3, q4⟩ := ih (processSig env st s)
    refine ⟨?_, ?_, ?_, ?_⟩
    · rw [q1, hsig, p1, hst1rows]
      simp
    · rw [q2, hsig, p2, hst1written]
      simp
      omega
    · rw [q3, hsig, p3, hst1rows]
      simp
      omega
    · intro r hr
      rcases q4 r hr with hmem | hpred
      · rw [hsig] at hmem
        rcases p4 r hmem with hmem2 | hpred2
        · rw [hst1rows] at hmem2
          exact Or.inl hmem2
        · exact Or.inr hpred2
      · exact Or.inr hpred

theorem ws_not_illegal (c : Char) (h : isPyWs c = true) : illegalChar c = false := by
  simp only [isPyWs, Bool.or_eq_true, beq_iff_eq] at h
  rcases h with ((((h | h) | h) | h) | h) | h <;> subst h <;> rfl

theorem collapseWsAux_allWs : ∀ cs : List Char, cs.all isPyWs = true →
    collapseWsAux cs true = [] := by
  intro cs
  induction cs with
  | nil => intro _; rfl
  | cons c rest ih =>
    intro h
    rw [List.all_cons, Bool.and_eq_true] at h
    simp only [collapseWsAux, h.1, if_true]
    exact ih h.2

theorem collapseWsAux_allWs_false (cs : List Char) (h : cs.all isPyWs = true)
    (hne : cs ≠ []) : collapseWsAux cs false = [' '] := by
  cases cs with
  | nil => exact absurd rfl hne
  | cons c rest =>
    rw [List.all_cons, Bool.and_eq_true] at h
    simp only [collapseWsAux, h.1, if_true]
    rw [collapseWsAux_allWs rest h.2]
    simp

theorem mem_collapseWsAux : ∀ (cs : List Char) (flag : Bool) (c : Char),
    c ∈ collapseWsAux cs flag → c = ' ' ∨ c ∈ cs := by
  intro cs
  induction cs with
  | nil => intro flag c h; cases h
  | cons d rest ih =>
    intro flag c h
    by_cases hd : isPyWs d = true
    · cases flag with
      | true =>
        simp only [collapseWsAux, hd, if_true] at h
        rcases ih true c h with h | h
        · exact Or.inl h
        · exact Or.inr (List.mem_cons_of_mem _ h)
      | false =>
        simp only [collapseWsAux, hd, if_true] at h
        rcases List.mem_cons.mp h with h | h
        · exact Or.inl h
        · rcases ih true c h with h | h
          · exact Or.inl h
          · exact Or.inr (List.mem_cons_of_mem _ h)
    · simp only [collapseWsAux, hd, Bool.false_eq_true, if_false] at h
      rcases List.mem_cons.mp h with h | h
      · exact Or.inr (h ▸ List.mem_cons_self _ _)
      · rcases ih false c h with h | h
        · exact Or.inl h
        · exact Or.inr (List.mem_cons_of_mem _ h)

theorem mem_stripData {c : Char} {cs : List Char} (h : c ∈ stripData cs) : c ∈ cs := by
  unfold stripData at h
  rw [List.mem_reverse] at h
  have h2 := (List.dropWhile_sublist isPyWs).subset h
  rw [List.mem_reverse] at h2
  exact (List.dropWhile_sublist isPyWs).subset h2

theorem sanitize_filename_allWs (s : String) (h : s.data.all isPyWs = true) :
    sanitize_filename s = "document.pdf" := by
  have hmap : s.data.map (fun c => if illegalChar c then '_' else c) = s.data := by
    rw [List.map_congr_left, List.map_id]
    intro c hc
    have hws : isPyWs c = true := by
      rw [List.all_eq_true] at h
      exact h c hc
    rw [ws_not_illegal c hws]
    simp
  unfold sanitize_filename
  dsimp only
  rw [hmap]
  cases hcs : s.data with
  | nil => rfl
  | cons c rest =>
    rw [← hcs]
    rw [collapseWsAux_allWs_false s.data h (by rw [hcs]; exact List.cons_ne_nil _ _)]
    rw [show stripData [' '] = [] from rfl]
    rfl

theorem sanitize_filename_no_illegal (name : String) :
    ∀ c ∈ (sanitize_filename name).data, illegalChar c = false := by
  intro c hc
  unfold sanitize_filename at hc
  by_cases hempty :
      stripData (collapseWsAux (name.data.map (fun c => if illegalChar c then '_' else c)) false)
        = []
  · rw [if_pos hempty] at hc
    revert hc
    revert c
    decide
  · rw [if_neg hempty] at hc
    simp only [String.data] at hc
    have h2 := mem_stripData hc
    rcases mem_collapseWsAux _ _ _ h2 with h3 | h3
    · subst h3; rfl
    · rcases List.mem_map.mp h3 with ⟨a, _, ha⟩
      by_cases hil : illegalChar a = true
      · rw [hil] at ha
        simp only [if_true] at ha
        subst ha
        rfl
      · rw [Bool.not_eq_true] at hil
        rw [hil] at ha
        simp only [Bool.false_eq_true, if_false] at ha
        subst ha
        exact hil

theorem apiGetGo_sleeps_step (backoff : Nat) (j : Nat) :
    backoff :: (List.range j).map (fun i => backoff * 2 * 2 ^ i)
      = (List.range (j + 1)).map (fun i => backoff * 2 ^ i) := by
  rw [List.range_succ_eq_map, List.map_cons, List.map_map]
  simp only [pow_zero, Nat.mul_one]
  congr 1
  apply List.map_congr_left
  intro a _
  simp only [Function.comp_apply]
  rw [Nat.succ_eq_add_one, pow_succ]
  ring

theorem apiGetGo_spec (r : Nat → Nat) :
    ∀ (j fuel attempt backoff : Nat),
      j + 1 ≤ fuel →
      (∀ i, attempt ≤ i → i < attempt + j → retryableStatus (r i) = true) →
      (retryableStatus (r (attempt + j)) = false ∨ j + 1 = fuel) →
      apiGetGo r fuel attempt backoff
        = ⟨r (attempt + j), attempt + j, (List.range j).map (fun i => backoff * 2 ^ i)⟩ := by
  intro j
  induction j with
  | zero =>
    intro fuel attempt backoff hfuel hall hstop
    match fuel, hfuel with
    | 1, _ =>
      simp [apiGetGo]
    | fuel+2, _ =>
      rcases hstop with hs | hs
      · simp only [Nat.add_zero] at hs
        simp [apiGetGo, hs]
      · omega
  | succ j ih =>
    intro fuel attempt backoff hfuel hall hstop
    match fuel, hfuel with
    | fuel+2, _ =>
      have hret : retryableStatus (r attempt) = true :=
        hall attempt (Nat.le_refl _) (by omega)
      simp only [apiGetGo, hret, if_true]
      rw [ih (fuel + 1) (attempt + 1) (backoff * 2) (by omega) ?h1 ?h2]
      case h1 =>
        intro i hi1 hi2
        exact hall i (by omega) (by omega)
      case h2 =>
        rcases hstop with hs | hs
        · left
          have : attempt + 1 + j = attempt + (j + 1) := by omega
          rw [this]
          exact hs
        · right
          omega
      have harg : attempt + 1 + j = attempt + (j + 1) := by omega
      rw [harg]
      rw [← apiGetGo_sleeps_step backoff j]

/-- Concatenation, in fetch order, of the page bodies the server returns at
offsets `offset, offset + PAGE_LIMIT, …` for `k + 1` pages. -/
def pagesConcat {α : Type} (server : Nat → PageResp α) : Nat → Nat → List α
  | 0, offset => (server offset).body
  | k+1, offset => (server offset).body ++ pagesConcat server k (offset + PAGE_LIMIT)

theorem fetchLoop_spec {α : Type} (server : Nat → PageResp α) :
    ∀ (k offset : Nat) (collected : List α) (fuel : Nat),
      k + 1 ≤ fuel →
      (∀ i, i < k → (server (offset + i * PAGE_LIMIT)).status = 200
          ∧ (server (offset + i * PAGE_LIMIT)).body.length = PAGE_LIMIT) →
      (((server (offset + k * PAGE_LIMIT)).status = 200
          ∧ (server (offset + k * PAGE_LIMIT)).body.length < PAGE_LIMIT →
        fetchLoop server fuel offset collected
          = Except.ok (collected ++ pagesConcat server k offset))
      ∧ ((server (offset + k * PAGE_LIMIT)).status ≠ 200 →
        fetchLoop server fuel offset collected
          = Except.error ("Failed to list signatures: "
              ++ natToDec (server (offset + k * PAGE_LIMIT)).status
              ++ " " ++ (server (offset + k * PAGE_LIMIT)).text))) := by
  intro k
  induction k with
  | zero =>
    intro offset collected fuel hfuel hfull
    match fuel, hfuel with
    | fuel+1, _ =>
      simp only [Nat.zero_mul, Nat.add_zero]
      constructor
      · rintro ⟨hst, hlen⟩
        simp only [fetchLoop, hst]
        rw [if_neg (by simp)]
        by_cases hemp : (server offset).body.isEmpty = true
        · rw [if_pos hemp]
          have : (server offset).body = [] := List.isEmpty_iff.mp hemp
          simp [pagesConcat, this]
        · rw [if_neg hemp]
          rw [if_pos hlen]
          simp [pagesConcat]
      · intro hst
        simp only [fetchLoop]
        rw [if_pos hst]
  | succ k ih =>
    intro offset collected fuel hfuel hfull
    match fuel, hfuel with
    | fuel+1, _ =>
      have h0 := hfull 0 (by omega)
      simp only [Nat.zero_mul, Nat.add_zero] at h0
      have hne : (server offset).body.isEmpty = false := by
        apply isEmpty_false_of_ne_nil
        intro hnil
        rw [hnil] at h0
        simp [PAGE_LIMIT] at h0
      have hrec : fetchLoop server (fuel + 1) offset collected
          = fetchLoop server fuel (offset + PAGE_LIMIT) (collected ++ (server offset).body) := by
        simp only [fetchLoop, h0.1]
        rw [if_neg (by simp), if_neg (by simp [hne]), if_neg (by simp [h0.2])]
      have hfull2 : ∀ i, i < k →
          (server (offset + PAGE_LIMIT + i * PAGE_LIMIT)).status = 200
          ∧ (server (offset + PAGE_LIMIT + i * PAGE_LIMIT)).body.length = PAGE_LIMIT := by
        intro i hi
        have := hfull (i + 1) (by omega)
        have harg : offset + (i + 1) * PAGE_LIMIT = offset + PAGE_LIMIT + i * PAGE_LIMIT := by
          ring
        rw [harg] at this
        exact this
      have harg2 : offset + (k + 1) * PAGE_LIMIT = offset + PAGE_LIMIT + k * PAGE_LIMIT := by
        ring
      obtain ⟨iha, ihb⟩ := ih (offset + PAGE_LIMIT) (collected ++ (server offset).body) fuel
        (by omega) hfull2
      constructor
      · rintro ⟨hst, hlen⟩
        rw [harg2] at hst hlen
        rw [hrec, iha ⟨hst, hlen⟩]
        simp [pagesConcat]
      · intro hst
        rw [harg2] at hst
        rw [hrec, ihb hst, harg2]

/-- Re-run scenario: the output folder already contains the ledger and the
expected file `a@x.com_report.pdf` for the single document. -/
def envRerun : Env :=
  { detail := fun _ =>
      some (Json.obj [("signers", Json.arr [Json.obj [("email", Json.str "a@x.com")]])]),
    download := fun _ _ => Except.ok () }

/-- Single signature with one document named `report.pdf`. -/
def sigRerun : Sig :=
  { id := "s1", created_at := "2024-03-04",
    documents := [⟨"d1", some "report.pdf"⟩],
    raw := Json.obj [] }

/-- Claim C1: re-running `main` against an output directory that already
contains every expected file should produce zero new downloads and a
`skipped_exists` row per document. The code does the opposite: because
`make_unique_filename` is called before the existence check, the pre-existing
file only bumps the counter, the freshly numbered path does not exist, and
the document is downloaded again to `a@x.com_report_2.pdf` with a
`downloaded` row and no `skipped_exists` row. This theorem evaluates the
model at that failing input. -/
theorem claim_C1_rerun_redownloads_eval :
    (mainRunOk envRerun [sigRerun] ["download_log.csv", "a@x.com_report.pdf"]).rows.map Row.status
        = ["downloaded"]
    ∧ (mainRunOk envRerun [sigRerun] ["download_log.csv", "a@x.com_report.pdf"]).skipped = 0
    ∧ (mainRunOk envRerun [sigRerun] ["download_log.csv", "a@x.com_report.pdf"]).written
        = ["a@x.com_report_2.pdf"] := by
  decide

/-- Claim C2: the path returned by `make_unique_filename` never exists in the
directory at the moment it is returned, so the `out_path.exists()` check that
follows it in `main` is always false and the `skipped_exists` branch is
unreachable: no run ever produces a `skipped_exists` row. -/
theorem claim_C2_unique_path_never_exists :
    (∀ (existing : List String) (filename : String),
        make_unique_filename existing filename ∉ existing)
    ∧ (∀ (env : Env) (sigs : List Sig) (fs0 : List String),
        ∀ r ∈ (mainRunOk env sigs fs0).rows, r.status ≠ "skipped_exists") := by
  constructor
  · exact make_unique_filename_not_mem
  · intro env sigs fs0 r hr
    have hspec := (foldSigs_spec env sigs
      { fs := (if "download_log.csv" ∈ fs0 then fs0 else fs0 ++ ["download_log.csv"]),
        rows := [], written := [], downloaded := 0, skipped := 0, failures := 0 }).2.2.2
    rcases hspec r hr with hmem | hpred
    · cases hmem
    · rcases hpred.1 with hs | hs <;> rw [hs] <;> decide

/-- Witness for C2 at a concrete run: the row produced for the one document
of `sigRerun` over a directory that already holds the expected file. -/
theorem claim_C2_witness :
    (⟨"s1", "d1", "a@x.com", "report.pdf", "a@x.com_report_2.pdf", "2024-03-04",
        "downloaded", ""⟩ : Row).status ≠ "skipped_exists" :=
  claim_C2_unique_path_never_exists.2 envRerun [sigRerun]
    ["download_log.csv", "a@x.com_report.pdf"] _ (by decide)

/-- Claim C3 counterexample: with `report.pdf` on disk and no new file
created, `make_unique_filename` is a pure function of the directory state, so
a repeated (second, third, …) call still returns `report_2.pdf`, not the
claimed `report_3.pdf`. -/
theorem claim_C3_counterexample :
    make_unique_filename ["report.pdf"] "report.pdf" = "report_2.pdf"
    ∧ make_unique_filename ["report.pdf"] "report.pdf" ≠ "report_3.pdf" := by
  decide

/-- Claim C3 amended: with `report.pdf` existing, the call returns
`report_2.pdf`; `report_3.pdf` is returned only once `report_2.pdf` also
exists on disk (which `main` brings about by writing each successful download
before the next document is processed). The counter is re-evaluated against
the directory contents on every call, not against names handed out earlier
in the run. -/
theorem claim_C3_amended :
    make_unique_filename ["report.pdf"] "report.pdf" = "report_2.pdf"
    ∧ make_unique_filename ["report.pdf", "report_2.pdf"] "report.pdf" = "report_3.pdf" := by
  decide

/-- Claim C4: `api_get` retries exactly on the statuses 429, 500, 502, 503
and 504, sleeping before each retry with a delay that starts at the
configured initial backoff (1.5 s, recorded in half-second units) and
doubles each attempt, up to `MAX_RETRIES` attempts; any other status is
returned as soon as it appears, so a non-retryable first response returns on
attempt 1 with no sleep; on exhaustion the last failing response is returned
rather than an exception raised. In particular 429, 429, 200 gives exactly
two delayed retries then success, and 500 on every attempt surfaces as a
non-200 response whose status makes the pagination loop abort, and a listing
error aborts the whole run. -/
theorem claim_C4_api_get_retry :
    (∀ (r : Nat → Nat) (k : Nat), 1 ≤ k → k ≤ MAX_RETRIES →
        (∀ i, 1 ≤ i → i < k → retryableStatus (r i) = true) →
        (retryableStatus (r k) = false ∨ k = MAX_RETRIES) →
        api_get r = ⟨r k, k,
          (List.range (k - 1)).map (fun i => INITIAL_BACKOFF_HALVES * 2 ^ i)⟩)
    ∧ (∀ r : Nat → Nat, retryableStatus (r 1) = false → api_get r = ⟨r 1, 1, []⟩)
    ∧ api_get (fun a => if a ≤ 2 then 429 else 200) = ⟨200, 3, [3, 6]⟩
    ∧ api_get (fun _ => 500) = ⟨500, 5, [3, 6, 12, 24]⟩
    ∧ fetch_signatures_for_year 3
        (fun _ => PageResp.mk (api_get (fun _ => 500)).status "boom" ([] : List Nat))
        = Except.error "Failed to list signatures: 500 boom"
    ∧ (∀ (env : Env) (fs0 : List String) (msg : String),
        mainRun env (Except.error msg) fs0 = Except.error msg) := by
  refine ⟨?_, ?_, by decide, by decide, by rfl, ?_⟩
  · intro r k hk1 hk2 hall hstop
    unfold api_get
    have h := apiGetGo_spec r (k - 1) MAX_RETRIES 1 INITIAL_BACKOFF_HALVES
      (by unfold MAX_RETRIES at hk2 ⊢; omega) ?h1 ?h2
    case h1 =>
      intro i hi1 hi2
      exact hall i hi1 (by omega)
    case h2 =>
      have harg : 1 + (k - 1) = k := by omega
      rw [harg]
      rcases hstop with hs | hs
      · exact Or.inl hs
      · right
        unfold MAX_RETRIES at hs ⊢
        omega
    rw [h]
    have harg : 1 + (k - 1) = k := by omega
    rw [harg]
  · intro r hr
    unfold api_get MAX_RETRIES
    simp [apiGetGo, hr]
  · intro env fs0 msg
    rfl

/-- Witness for C4: the general retry characterization applied to a server
that answers 502 on every attempt — five attempts, four doubling sleeps. -/
theorem claim_C4_witness :
    api_get (fun _ => 502)
      = ⟨502, 5, (List.range 4).map (fun i => INITIAL_BACKOFF_HALVES * 2 ^ i)⟩ :=
  claim_C4_api_get_retry.1 (fun _ => 502) 5 (by omega) (by decide)
    (fun i h1 h2 => rfl) (Or.inr rfl)

/-- Claim C5: `fetch_signatures_for_year` requests pages at offsets advanced
by the fixed page size (0, 100, 200, …), stops at the first page that is
empty or shorter than the page size, returns the concatenation of all
fetched pages in fetch order as a fully materialized list, and raises (an
`Except.error`, no partial result) on any non-200 response. -/
theorem claim_C5_fetch_pagination :
    ∀ {α : Type} (server : Nat → PageResp α) (k fuel : Nat),
      k + 1 ≤ fuel →
      (∀ i, i < k → (server (i * PAGE_LIMIT)).status = 200
          ∧ (server (i * PAGE_LIMIT)).body.length = PAGE_LIMIT) →
      (((server (k * PAGE_LIMIT)).status = 200
          ∧ (server (k * PAGE_LIMIT)).body.length < PAGE_LIMIT →
        fetch_signatures_for_year fuel server = Except.ok (pagesConcat server k 0))
      ∧ ((server (k * PAGE_LIMIT)).status ≠ 200 →
        fetch_signatures_for_year fuel server
          = Except.error ("Failed to list signatures: "
              ++ natToDec (server (k * PAGE_LIMIT)).status
              ++ " " ++ (server (k * PAGE_LIMIT)).text))) := by
  intro α server k fuel hfuel hfull
  have h := fetchLoop_spec server k 0 [] fuel hfuel
    (by intro i hi; simpa using hfull i hi)
  simp only [Nat.zero_add] at h
  constructor
  · intro hstop
    rw [show fetch_signatures_for_year fuel server = fetchLoop server fuel 0 [] from rfl]
    rw [h.1 hstop]
    simp
  · intro hstop
    rw [show fetch_signatures_for_year fuel server = fetchLoop server fuel 0 [] from rfl]
    exact h.2 hstop

/-- Server used by the C5 witness: one full page of 100 zeros at offset 0,
then a short page. -/
def serverC5 : Nat → PageResp Nat :=
  fun offset =>
    if offset = 0 then ⟨200, "", List.replicate 100 0⟩ else ⟨200, "", [7]⟩

/-- Witness for C5: the pagination characterization applied to `serverC5`,
a concrete two-page listing. -/
theorem claim_C5_witness :
    fetch_signatures_for_year 2 serverC5 = Except.ok (pagesConcat serverC5 1 0) :=
  (claim_C5_fetch_pagination serverC5 1 2 (by omega)
    (by intro i hi; interval_cases i; decide)).1 (by decide)

/-- Claim C6: `extract_emails` returns a duplicate-free list of validated
email strings in first-seen order, equal to the first non-empty result
among, in priority order: the structured scan of `detail`, the structured
scan of `summary`, the deep walk over `detail`, and the deep walk over
`summary`; and a detail whose signers carry the same address twice yields
that address exactly once. -/
theorem claim_C6_extract_emails :
    (∀ (s : Json) (d : Option Json),
        (extract_emails s d).Nodup
        ∧ (∀ e ∈ extract_emails s d, isEmail e = true)
        ∧ extract_emails s d = firstNonEmpty [strat1 d, strat2 s, strat3 d, strat4 s])
    ∧ extract_emails (Json.obj [])
        (some (Json.obj [("signers",
          Json.arr [Json.obj [("email", Json.str "a@x.com")],
                    Json.obj [("email", Json.str "a@x.com")]])])) = ["a@x.com"] := by
  constructor
  · intro s d
    obtain ⟨h1, h2⟩ := extract_emails_inv s d
    exact ⟨h1, h2, extract_emails_eq_firstNonEmpty s d⟩
  · decide

/-- Witness for C6: the validation part applied to the concrete extraction
example — the returned address passes the email regex. -/
theorem claim_C6_witness :
    isEmail "a@x.com" = true :=
  (claim_C6_extract_emails.1 (Json.obj [])
    (some (Json.obj [("signers",
      Json.arr [Json.obj [("email", Json.str "a@x.com")],
                Json.obj [("email", Json.str "a@x.com")]])]))).2.1
    "a@x.com" (by decide)

/-- Claim C7: in one run of `main`, every document of every listed signature
produces exactly one ledger row, in listing order (the rows' (signature id,
document id) keys are exactly the documents in order); every status is
`downloaded`, `skipped_exists` or `error`; the number of files written
equals the number of `downloaded` rows, so each document yields at most one
file; and an `error` row carries exactly the download failure detail while
the loop continues through the remaining documents. -/
theorem claim_C7_one_row_per_document :
    ∀ (env : Env) (sigs : List Sig) (fs0 : List String),
      ((mainRunOk env sigs fs0).rows.map rowKey
          = sigs.flatMap (fun s => s.documents.map (fun dd => (s.id, dd.id))))
      ∧ (∀ r ∈ (mainRunOk env sigs fs0).rows,
            r.status = "downloaded" ∨ r.status = "skipped_exists" ∨ r.status = "error")
      ∧ ((mainRunOk env sigs fs0).written.length
          = (mainRunOk env sigs fs0).rows.countP (fun r => r.status == "downloaded"))
      ∧ (∀ r ∈ (mainRunOk env sigs fs0).rows,
            r.status = "error" → env.download r.signature_id r.document_id = Except.error r.error) := by
  intro env sigs fs0
  unfold mainRunOk
  dsimp only
  obtain ⟨h1, h2, h3, h4⟩ := foldSigs_spec env sigs
    { fs := (if "download_log.csv" ∈ fs0 then fs0 else fs0 ++ ["download_log.csv"]),
      rows := [], written := [], downloaded := 0, skipped := 0, failures := 0 }
  refine ⟨?_, ?_, ?_, ?_⟩
  · simpa using h1
  · intro r hr
    rcases h4 r hr with hmem | hpred
    · cases hmem
    · rcases hpred.1 with hs | hs
      · exact Or.inl hs
      · exact Or.inr (Or.inr hs)
  · rw [h2, h3]
    simp
  · intro r hr herr
    rcases h4 r hr with hmem | hpred
    · cases hmem
    · exact hpred.2 herr

/-- Environment for the C7 witness: the detail fetch fails and the single
download fails with a concrete message. -/
def envC7 : Env :=
  { detail := fun _ => none,
    download := fun _ _ => Except.error "HTTP 500" }

/-- Signature for the C7 witness: one document with no declared file name,
and a summary payload that is not a JSON object, so no email is found. -/
def sigC7 : Sig :=
  { id := "s2", created_at := "2024-05-06",
    documents := [⟨"d9", none⟩],
    raw := Json.null }

/-- Witness for C7: the status disjunction applied to the one row produced
for `sigC7`'s document, whose download failed. -/
theorem claim_C7_witness :
    (⟨"s2", "d9", "", "d9.pdf", "d9.pdf", "2024-05-06", "error", "HTTP 500"⟩ : Row).status
        = "downloaded"
    ∨ (⟨"s2", "d9", "", "d9.pdf", "d9.pdf", "2024-05-06", "error", "HTTP 500"⟩ : Row).status
        = "skipped_exists"
    ∨ (⟨"s2", "d9", "", "d9.pdf", "d9.pdf", "2024-05-06", "error", "HTTP 500"⟩ : Row).status
        = "error" :=
  (claim_C7_one_row_per_document envC7 [sigC7] []).2.1 _
    (by
      rw [show (mainRunOk envC7 [sigC7] []).rows
          = [⟨"s2", "d9", "", "d9.pdf", "d9.pdf", "2024-05-06", "error", "HTTP 500"⟩]
        by decide]
      exact List.mem_singleton_self _)

/-- Environment for the C8 scenario: the detail payload names one signer,
`user@example.com`, and every download succeeds. -/
def envTwoDocs : Env :=
  { detail := fun _ =>
      some (Json.obj [("signers", Json.arr [Json.obj [("email", Json.str "user@example.com")]])]),
    download := fun _ _ => Except.ok () }

/-- Signature for the C8 scenario: two documents that share the original
name `contract.pdf`. -/
def sigTwoDocs : Sig :=
  { id := "s1", created_at := "2024-01-02",
    documents := [⟨"d1", some "contract.pdf"⟩, ⟨"d2", some "contract.pdf"⟩],
    raw := Json.obj [] }

/-- Claim C8: the derived base name is the extracted emails joined with `+`,
an underscore and the original name when at least one email was found, and
the original name unchanged otherwise; after sanitization `.pdf` is appended
exactly when the name has no extension; and one signature with two documents
and one found email yields `user@example.com_contract.pdf` and, the first
file now existing, `user@example.com_contract_2.pdf`, both rows
`downloaded`. -/
theorem claim_C8_file_naming :
    (∀ eu orig : String, eu ≠ "" → baseNameFor eu orig = eu ++ "_" ++ orig)
    ∧ (∀ orig : String, baseNameFor "" orig = orig)
    ∧ (∀ eu orig : String,
        (splitext (sanitize_filename (baseNameFor eu orig))).2 = "" →
          safeNameFor eu orig = sanitize_filename (baseNameFor eu orig) ++ ".pdf")
    ∧ (∀ eu orig : String,
        (splitext (sanitize_filename (baseNameFor eu orig))).2 ≠ "" →
          safeNameFor eu orig = sanitize_filename (baseNameFor eu orig))
    ∧ ((mainRunOk envTwoDocs [sigTwoDocs] []).written
        = ["user@example.com_contract.pdf", "user@example.com_contract_2.pdf"]
      ∧ (mainRunOk envTwoDocs [sigTwoDocs] []).rows.map Row.status
        = ["downloaded", "downloaded"]) := by
  refine ⟨?_, ?_, ?_, ?_, by decide, by decide⟩
  · intro eu orig h
    simp [baseNameFor, h]
  · intro orig
    simp [baseNameFor]
  · intro eu orig h
    simp [safeNameFor, h]
  · intro eu orig h
    simp [safeNameFor, h]

/-- Witness for C8: the base-name rule applied to the scenario's email and
original name. -/
theorem claim_C8_witness :
    baseNameFor "user@example.com" "contract.pdf"
      = "user@example.com" ++ "_" ++ "contract.pdf" :=
  claim_C8_file_naming.1 "user@example.com" "contract.pdf" (by decide)

/-- Claim C9: `sanitize_filename` replaces every character of the illegal
class with an underscore (no illegal character survives in the result),
collapses whitespace runs, trims the ends, and returns the fixed default
`document.pdf` on an empty or all-whitespace input; in particular
`a:b/c*d` becomes `a_b_c_d`. -/
theorem claim_C9_sanitize :
    sanitize_filename "a:b/c*d" = "a_b_c_d"
    ∧ sanitize_filename "" = "document.pdf"
    ∧ (∀ s : String, s.data.all isPyWs = true → sanitize_filename s = "document.pdf")
    ∧ (∀ name : String, ∀ c ∈ (sanitize_filename name).data, illegalChar c = false)
    ∧ sanitize_filename "a   b" = "a b"
    ∧ sanitize_filename "  a b  " = "a b" := by
  refine ⟨by decide, by decide, ?_, ?_, by decide, by decide⟩
  · exact sanitize_filename_allWs
  · exact sanitize_filename_no_illegal

/-- Witness for C9: the all-whitespace rule at a concrete input and the
no-illegal-character rule at the first character of a sanitized name. -/
theorem claim_C9_witness :
    sanitize_filename "  " = "document.pdf" ∧ illegalChar 'a' = false :=
  ⟨claim_C9_sanitize.2.2.1 "  " (by decide),
   claim_C9_sanitize.2.2.2.1 "a:b" 'a' (by decide)⟩

/-- Claim C10: `build_date_range_for_year` returns since `Y-01-01` and until
`Y-12-31`, except when `Y` is the current year, in which case until is
today's ISO date. -/
theorem claim_C10_date_range :
    ∀ (today : PyDate) (year : Nat),
      (build_date_range_for_year today year).1 = natToDec year ++ "-01-01"
      ∧ (year ≠ today.year →
          (build_date_range_for_year today year).2 = natToDec year ++ "-12-31")
      ∧ (year = today.year →
          (build_date_range_for_year today year).2 = today_iso today) := by
  intro today year
  refine ⟨rfl, ?_, ?_⟩
  · intro h
    simp [build_date_range_for_year, h]
  · intro h
    simp [build_date_range_for_year, h]

/-- Witness for C10: both branches at concrete dates — 2024 against a 2026
current date gives Dec 31, and 2026 gives today's ISO date. -/
theorem claim_C10_witness :
    (build_date_range_for_year ⟨2026, 10, 12⟩ 2024).2 = natToDec 2024 ++ "-12-31"
    ∧ (build_date_range_for_year ⟨2026, 10, 12⟩ 2026).2 = today_iso ⟨2026, 10, 12⟩ :=
  ⟨(claim_C10_date_range ⟨2026, 10, 12⟩ 2024).2.1 (by decide),
   (claim_C10_date_range ⟨2026, 10, 12⟩ 2026).2.2 (by decide)⟩
